import Mathlib

/-!
Verification development for the FWD Nagaoka bulletin pipeline
(`fwd-nagaoka/src/fwdnagaoka/fwd_nagaoka.py` and `datamodel.py`).

Strings are modelled as `List Char`.  The regular expressions of the source
are embedded as specialised executable matchers that follow Python `re`
semantics (`re.match` anchors at the start only; `.` matches any character
except a newline unless `re.DOTALL` is set; `$` matches at the end of the
string or just before a trailing newline; lazy quantifiers expand shortest
first, greedy ones longest first, with backtracking).  The character classes
`\d` and `\S` are modelled over their ASCII range (plus the ideographic
space for `\S`), which covers every character the bulletin format produces.

`datetime.datetime` values are modelled by `PyDateTime`; the constructor
validation of CPython (year 1..9999, month 1..12, day within the month,
hour below 24, minute below 60) is modelled by `mkDatetime`, and
`datetime.timedelta(days=1)` addition by `addOneDay` (proleptic Gregorian
calendar; the MAXYEAR overflow of CPython at 9999-12-31 is not modelled).

Exceptions (`ValueError`) are modelled by `Except Unit`; the database is a
`Db` state record threaded explicitly through the committing operations.
-/

abbrev Str := List Char

def str (s : String) : Str := s.data

/-- Python `\d` (ASCII range). -/
def isDigitCh (c : Char) : Bool := '0' ≤ c && c ≤ '9'

def digitVal (c : Char) : Nat := c.toNat - '0'.toNat

/-- Python `\s` over the characters the bulletin can contain
(ASCII whitespace and the ideographic space). -/
def pyIsSpace (c : Char) : Bool :=
  c = ' ' || c = '\t' || c = '\n' || c = '\r' || c = '\x0b' || c = '\x0c' || c = '　'

/-- `pat` is a prefix of `s`. -/
def startsWith : Str → Str → Bool
  | [], _ => true
  | _ :: _, [] => false
  | p :: ps, c :: cs => p = c && startsWith ps cs

/-- `re.search` of a literal pattern: `pat` occurs somewhere in `s`. -/
def hasSub (pat : Str) : Str → Bool
  | [] => startsWith pat []
  | c :: cs => startsWith pat (c :: cs) || hasSub pat cs

/-- `s` contains no newline (a bare `.` in a Python pattern cannot match one). -/
def noNl (s : Str) : Bool := s.all (fun c => c ≠ '\n')

/-- Remove one trailing newline if present: `$` matches at the end of the
string or just before a final newline. -/
def stripNl (s : Str) : Str :=
  match s.reverse with
  | '\n' :: restRev => restRev.reverse
  | _ => s

/-- `(?P<x>.+)$` anchored at the end: matches iff the remainder, with a
single trailing newline removed, is a nonempty newline-free string. -/
def dotPlusDollar (r : Str) : Bool := !(stripNl r).isEmpty && noNl (stripNl r)

/-- `\d{2}`: two digit characters, returning their value and the remainder. -/
def digit2 : Str → Option (Nat × Str)
  | c1 :: c2 :: rest =>
    if isDigitCh c1 && isDigitCh c2 then
      some (10 * digitVal c1 + digitVal c2, rest)
    else none
  | _ => none

/- ---------------------------------------------------------------- -/
/- Data model (`datamodel.py`)                                      -/
/- ---------------------------------------------------------------- -/

inductive TextPosition where
  | CURR | PAST
deriving DecidableEq, Repr

inductive NotifyStatus where
  | SKIPPED | NOT_YET | NOTIFIED
deriving DecidableEq, Repr

inductive DisasterMainCategory where
  | «火災» | «救助» | «警戒» | «救急支援» | «その他»
deriving DecidableEq, Repr

inductive DisasterStatus where
  | «発生» | «救助終了» | «消火不要» | «鎮圧» | «鎮火» | «終了»
deriving DecidableEq, Repr

/-- `datetime.datetime` restricted to the fields the pipeline sets
(seconds and microseconds are always zero). -/
structure PyDateTime where
  year : Nat
  month : Nat
  day : Nat
  hour : Nat
  minute : Nat
deriving DecidableEq, Repr

/-- `datetime` comparison: lexicographic on the fields. -/
def dtLt (a b : PyDateTime) : Bool :=
  a.year < b.year ||
    (a.year = b.year && (a.month < b.month ||
      (a.month = b.month && (a.day < b.day ||
        (a.day = b.day && (a.hour < b.hour ||
          (a.hour = b.hour && a.minute < b.minute)))))))

def isLeap (y : Nat) : Bool := y % 4 = 0 && (y % 100 ≠ 0 || y % 400 = 0)

def daysInMonth (y m : Nat) : Nat :=
  if m = 2 then (if isLeap y then 29 else 28)
  else if m = 4 || m = 6 || m = 9 || m = 11 then 30
  else 31

/-- CPython constructor validation of `datetime.datetime(...)`. -/
def validDate (d : PyDateTime) : Bool :=
  1 ≤ d.year && d.year ≤ 9999 && 1 ≤ d.month && d.month ≤ 12 &&
    1 ≤ d.day && d.day ≤ daysInMonth d.year d.month && d.hour ≤ 23 && d.minute ≤ 59

/-- `datetime.datetime(year=y, month=mo, day=da, hour=ho, minute=mi)`:
raises `ValueError` when a field is out of range. -/
def mkDatetime (y mo da ho mi : Nat) : Except Unit PyDateTime :=
  if validDate ⟨y, mo, da, ho, mi⟩ then .ok ⟨y, mo, da, ho, mi⟩ else .error ()

/-- `dt + datetime.timedelta(days=1)` (proleptic Gregorian calendar). -/
def addOneDay (d : PyDateTime) : PyDateTime :=
  if d.day < daysInMonth d.year d.month then { d with day := d.day + 1 }
  else if d.month < 12 then { d with month := d.month + 1, day := 1 }
  else { d with year := d.year + 1, month := 1, day := 1 }

/-- One row of the `nagaoka_raw_text` table. -/
structure NagaokaRawText where
  id : Nat
  raw_text : Str
  retr_dt : PyDateTime
  text_pos : TextPosition
  notify_status : NotifyStatus
deriving DecidableEq, Repr

/-- One row of the `nagaoka_disaster_detail` table. -/
structure NagaokaDisasterDetail where
  raw_text_id : Nat
  main_category : DisasterMainCategory
  sub_category : Str
  open_dt : PyDateTime
  close_dt : Option PyDateTime
  status : DisasterStatus
  address1 : Option Str
  address2 : Str
  address3 : Option Str
deriving DecidableEq, Repr

/- ---------------------------------------------------------------- -/
/- Stage-1 statement grammar (`FwdNagaoka._analyze_text`, first match) -/
/- ---------------------------------------------------------------- -/

/-- The named groups of the stage-1 pattern
`(?P<month>\d{2})月(?P<day>\d{2})日 (?P<hour>\d{2}):(?P<minute>\d{2}) (?P<city>\S+?) (?P<next>.+)。$`. -/
structure Stage1 where
  month : Nat
  day : Nat
  hour : Nat
  minute : Nat
  city : Str
  next : Str
deriving DecidableEq, Repr

/-- `(?P<city>\S+?) ` — a lazy nonempty run of non-whitespace characters
followed by the literal space: the run up to the first whitespace character,
which must be a plain space. -/
def splitCity (s : Str) : Option (Str × Str) :=
  let city := s.takeWhile (fun c => !pyIsSpace c)
  match city, s.dropWhile (fun c => !pyIsSpace c) with
  | [], _ => none
  | _ :: _, ' ' :: r => some (city, r)
  | _ :: _, _ => none

/-- `(?P<next>.+)。$` — greedily everything up to a final `。` (the dollar
allows one trailing newline); the group is nonempty and newline-free. -/
def parseNextClause (s : Str) : Option Str :=
  match (stripNl s).reverse with
  | '。' :: restRev =>
    let x := restRev.reverse
    if !x.isEmpty && noNl x then some x else none
  | _ => none

/-- `re.match` of the stage-1 pattern against a raw statement. -/
def mFirst (s : Str) : Option Stage1 := do
  let (mo, r1) ← digit2 s
  match r1 with
  | '月' :: r2 => do
    let (da, r3) ← digit2 r2
    match r3 with
    | '日' :: ' ' :: r4 => do
      let (ho, r5) ← digit2 r4
      match r5 with
      | ':' :: r6 => do
        let (mi, r7) ← digit2 r6
        match r7 with
        | ' ' :: r8 => do
          let (city, r9) ← splitCity r8
          let nx ← parseNextClause r9
          some ⟨mo, da, ho, mi, city, nx⟩
        | _ => none
      | _ => none
    | _ => none
  | _ => none

/- ---------------------------------------------------------------- -/
/- Stage-2 grammar (`FwdNagaoka._analyze_text`, second match)        -/
/- `(?P<address>.+?)(に|の)(?P<category>\S+?)(は|のため)(?P<status>.+)$` -/
/- ---------------------------------------------------------------- -/

/-- `(?P<status>.+)$` — the greedy run takes everything up to the end
(or up to a single trailing newline), which must be nonempty and
newline-free. -/
def statusOf (r : Str) : Option Str :=
  if dotPlusDollar r then some (stripNl r) else none

/-- Lazy `(?P<category>\S+?)(は|のため)(?P<status>.+)$`, entered with one
category character already consumed (`catRev` is the reversed category so
far).  At each position the alternation tries `は` first, then `のため`,
then extends the category by one non-whitespace character. -/
def catLoop (catRev : Str) : Str → Option (Str × Str)
  | [] => none
  | c :: r =>
    (match c, r with
     | 'は', r =>
       match statusOf r with
       | some st => some (catRev.reverse, st)
       | none => none
     | _, _ => none) <|>
    (if c = 'の' && startsWith (str "ため") r then
       match statusOf (r.drop 2) with
       | some st => some (catRev.reverse, st)
       | none => none
     else none) <|>
    (if !pyIsSpace c then catLoop (c :: catRev) r else none)

/-- First category character (`\S+?` needs at least one). -/
def startCat : Str → Option (Str × Str)
  | [] => none
  | c :: r => if !pyIsSpace c then catLoop [c] r else none

/-- Lazy `(?P<address>.+?)(に|の)…`, entered with one address character
already consumed.  At each position the alternation tries `に` first, then
`の`, then extends the address by one non-newline character. -/
def addrLoop (addrRev : Str) : Str → Option (Str × Str × Str)
  | [] => none
  | c :: r =>
    (if c = 'に' then
       match startCat r with
       | some (cat, st) => some (addrRev.reverse, cat, st)
       | none => none
     else none) <|>
    (if c = 'の' then
       match startCat r with
       | some (cat, st) => some (addrRev.reverse, cat, st)
       | none => none
     else none) <|>
    (if c ≠ '\n' then addrLoop (c :: addrRev) r else none)

/-- `re.match` of the stage-2 pattern: returns the `address`, `category`
and `status` groups. -/
def mSecond : Str → Option (Str × Str × Str)
  | [] => none
  | c :: r => if c ≠ '\n' then addrLoop [c] r else none

/- ---------------------------------------------------------------- -/
/- Category, address and status analysis (`_analyze_text` body)      -/
/- ---------------------------------------------------------------- -/

/-- The ordered keyword tests on the category clause
(`re.search` of 火災, 救助, 警戒, 救急 in that order). -/
def classifyCategory (c : Str) : DisasterMainCategory :=
  if hasSub (str "火災") c then .«火災»
  else if hasSub (str "救助") c then .«救助»
  else if hasSub (str "警戒") c then .«警戒»
  else if hasSub (str "救急") c then .«救急支援»
  else .«その他»

/-- `addr2, addr3 = m_2nd.group("address").split(" ")` — `str.split(" ")`
splits at every single space keeping empty pieces; the two-element tuple
unpacking raises `ValueError` unless the result has exactly two pieces. -/
def splitAddr (addr : Str) : Except Unit (Str × Str) :=
  match addr.splitOn ' ' with
  | [a2, a3] => .ok (a2, a3)
  | _ => .error ()

/-- `_get_close_dt` time pattern `(?P<hour>\d{2}):(?P<minute>\d{2}).+$`:
two digits, a colon, two digits, then at least one more character up to
the end. -/
def parseCloseTime (s : Str) : Option (Nat × Nat) := do
  let (ho, r1) ← digit2 s
  match r1 with
  | ':' :: r2 => do
    let (mi, r3) ← digit2 r2
    if dotPlusDollar r3 then some (ho, mi) else none
  | _ => none

/-- `FwdNagaoka._get_close_dt`: no time prefix gives `None`; otherwise the
close instant is built on `open_dt`'s calendar date (CPython validation can
raise) and advanced one day when it is strictly earlier than `open_dt`. -/
def getCloseDt (statusStr : Str) (openDt : PyDateTime) :
    Except Unit (Option PyDateTime) :=
  match parseCloseTime statusStr with
  | none => .ok none
  | some (ho, mi) =>
    match mkDatetime openDt.year openDt.month openDt.day ho mi with
    | .error e => .error e
    | .ok closeDt =>
      .ok (some (if dtLt closeDt openDt then addOneDay closeDt else closeDt))

/-- The ordered status-phrase tests of `_analyze_text` together with the
close-time extraction they trigger. -/
def statusAndClose (pos : TextPosition) (statusStr : Str)
    (openDt : PyDateTime) : Except Unit (DisasterStatus × Option PyDateTime) :=
  if hasSub (str "消防車が出動しました") statusStr then
    .ok (if pos = TextPosition.CURR then .«発生» else .«終了», none)
  else if hasSub (str "救助終了しました") statusStr then
    (getCloseDt statusStr openDt).map (fun c => (.«救助終了», c))
  else if hasSub (str "消火の必要はありませんでした") statusStr then
    .ok (.«消火不要», none)
  else if hasSub (str "鎮圧しました") statusStr then
    (getCloseDt statusStr openDt).map (fun c => (.«鎮圧», c))
  else if hasSub (str "鎮火しました") statusStr then
    (getCloseDt statusStr openDt).map (fun c => (.«鎮火», c))
  else
    .ok (.«終了», none)

/-- `FwdNagaoka._analyze_text`: the full per-statement analysis; any
`ValueError` (failed match, invalid datetime, failed tuple unpacking)
propagates as an error. -/
def analyzeText (raw : NagaokaRawText) : Except Unit NagaokaDisasterDetail :=
  match mFirst raw.raw_text with
  | none => .error ()
  | some m1 =>
    let openYear :=
      if raw.retr_dt.month < m1.month then raw.retr_dt.year - 1
      else raw.retr_dt.year
    match mkDatetime openYear m1.month m1.day m1.hour m1.minute with
    | .error e => .error e
    | .ok openDt =>
      let address1 := if m1.city ≠ str "長岡市" then some m1.city else none
      match mSecond m1.next with
      | none => .error ()
      | some (addr, cat, statusStr) =>
        let mainCat := classifyCategory cat
        match splitAddr addr with
        | .error e => .error e
        | .ok (a2, a3) =>
          match statusAndClose raw.text_pos statusStr openDt with
          | .error e => .error e
          | .ok (st, closeDt) =>
            .ok { raw_text_id := raw.id
                  main_category := mainCat
                  sub_category := cat
                  open_dt := openDt
                  close_dt := closeDt
                  status := st
                  address1 := address1
                  address2 := a2
                  address3 := if !a3.isEmpty then some a3 else none }

/- ---------------------------------------------------------------- -/
/- Statement extraction (`re.findall` in the commit functions)       -/
/- ---------------------------------------------------------------- -/

/-- Remainder of `s` after the literal prefix `pat`, when it is one. -/
def dropPrefixQ : Str → Str → Option Str
  | [], s => some s
  | _ :: _, [] => none
  | p :: ps, c :: cs => if p = c then dropPrefixQ ps cs else none

/-- Lazy `.+?` of `<span>…</span>` extraction: the shortest nonempty
newline-free run followed by the literal `。</span>`; returns the run and
the remainder after `</span>`. -/
def lazyBody : Str → Option (Str × Str)
  | [] => none
  | c :: rest =>
    if c = '\n' then none
    else
      match dropPrefixQ (str "。</span>") rest with
      | some after => some ([c], after)
      | none => (lazyBody rest).map (fun p => (c :: p.1, p.2))

theorem dropPrefixQ_len : ∀ pat s r, dropPrefixQ pat s = some r →
    r.length ≤ s.length := by
  intro pat
  induction pat with
  | nil => intro s r h; simp [dropPrefixQ] at h; simp [h]
  | cons p ps ih =>
    intro s r h
    cases s with
    | nil => simp [dropPrefixQ] at h
    | cons c cs =>
      simp only [dropPrefixQ] at h
      by_cases hpc : p = c
      · simp [hpc] at h
        exact Nat.le_succ_of_le (ih cs r h)
      · simp [hpc] at h

theorem lazyBody_len : ∀ s b a, lazyBody s = some (b, a) →
    a.length < s.length := by
  intro s
  induction s with
  | nil => intro b a h; simp [lazyBody] at h
  | cons c rest ih =>
    intro b a h
    simp only [lazyBody] at h
    by_cases hc : c = '\n'
    · simp [hc] at h
    · simp only [hc, if_false] at h
      cases hdp : dropPrefixQ (str "。</span>") rest with
      | some after =>
        rw [hdp] at h
        simp at h
        have := dropPrefixQ_len _ _ _ hdp
        have h2 := h.2
        subst h2
        simp only [List.length_cons]
        omega
      | none =>
        rw [hdp] at h
        simp only [Option.map_eq_some'] at h
        obtain ⟨⟨b1, a1⟩, hb, he⟩ := h
        have := ih b1 a1 hb
        simp only [Prod.mk.injEq] at he
        obtain ⟨he1, he2⟩ := he
        subst he2
        simp only [List.length_cons]
        omega

/-- One attempted match of `<span>(\d{2}月\d{2}日.+?。)</span>` at the
start of `s`: returns the captured group and the remainder after the
whole match. -/
def matchSpanAt (s : Str) : Option (Str × Str) :=
  match dropPrefixQ (str "<span>") s with
  | none => none
  | some r1 =>
    match r1 with
    | c1 :: c2 :: '月' :: c3 :: c4 :: '日' :: rest =>
      if isDigitCh c1 && isDigitCh c2 && isDigitCh c3 && isDigitCh c4 then
        match lazyBody rest with
        | some (body, after) =>
          some (c1 :: c2 :: '月' :: c3 :: c4 :: '日' :: (body ++ ['。']), after)
        | none => none
      else none
    | _ => none

theorem matchSpanAt_len : ∀ s g a, matchSpanAt s = some (g, a) →
    a.length < s.length := by
  intro s g a h
  unfold matchSpanAt at h
  split at h
  · simp at h
  next r1 hdp =>
    have hr1 := dropPrefixQ_len _ _ _ hdp
    split at h
    next c1 c2 c3 c4 rest =>
      split at h
      · split at h
        next body after hlb =>
          have hlen := lazyBody_len _ _ _ hlb
          simp only [Option.some.injEq, Prod.mk.injEq] at h
          have ha := h.2
          subst ha
          simp only [List.length_cons] at hr1 ⊢
          omega
        next => simp at h
      · simp at h
    next => simp at h

/-- `re.findall(r"<span>(\d{2}月\d{2}日.+?。)</span>", s)`: scan left to
right, trying a match at every position and resuming after each match. -/
def findallSpan (s : Str) : List Str :=
  match s with
  | [] => []
  | c :: rest =>
    match h : matchSpanAt (c :: rest) with
    | some (g, a) => g :: findallSpan a
    | none => findallSpan rest
termination_by s.length
decreasing_by
  · exact matchSpanAt_len _ _ _ h
  · simp

/- ---------------------------------------------------------------- -/
/- Database state and the committing passes                          -/
/- ---------------------------------------------------------------- -/

/-- The persisted state: the two tables and the autoincrement counter. -/
structure Db where
  rows : List NagaokaRawText
  details : List NagaokaDisasterDetail
  nextId : Nat
deriving DecidableEq, Repr

/-- The duplicate check of the commit functions: a row with the same
`raw_text` and the same `text_pos` already exists. -/
def registered (db : Db) (m : Str) (pos : TextPosition) : Bool :=
  db.rows.any (fun r => decide (r.raw_text = m ∧ r.text_pos = pos))

/-- The per-statement body of the commit loop: insert (and commit) a new
row unless an identical statement in the same zone is registered. -/
def insertIfAbsent (retrieveDt : PyDateTime) (pos : TextPosition)
    (notifyStat : NotifyStatus) (db : Db) (m : Str) : Db :=
  if registered db m pos then db
  else
    { db with
        rows := db.rows ++ [⟨db.nextId, m, retrieveDt, pos, notifyStat⟩]
        nextId := db.nextId + 1 }

/-- `FwdNagaoka._commit_disaster_list_curr`: extract the statements of the
current zone and insert the unregistered ones, oldest first
(`matches[::-1]`).  `now` is the ambient `datetime.datetime.now()` used
when `execute_dt` is `None`. -/
def commitDisasterListCurr (db : Db) (webpageTextCurr : Str)
    (now : PyDateTime) (executeDt : Option PyDateTime) : Db :=
  let retrieveDt := executeDt.getD now
  let notifyStat :=
    if executeDt.isNone then NotifyStatus.NOT_YET else NotifyStatus.SKIPPED
  ((findallSpan webpageTextCurr).reverse).foldl
    (insertIfAbsent retrieveDt TextPosition.CURR notifyStat) db

/-- `FwdNagaoka._commit_disaster_list_past`: same loop over the past zone. -/
def commitDisasterListPast (db : Db) (webpageTextPast : Str)
    (now : PyDateTime) (executeDt : Option PyDateTime) : Db :=
  let retrieveDt := executeDt.getD now
  let notifyStat :=
    if executeDt.isNone then NotifyStatus.NOT_YET else NotifyStatus.SKIPPED
  ((findallSpan webpageTextPast).reverse).foldl
    (insertIfAbsent retrieveDt TextPosition.PAST notifyStat) db

/- ---------------------------------------------------------------- -/
/- Analyzer pass (`FwdNagaoka._analyze`)                             -/
/- ---------------------------------------------------------------- -/

/-- The loop body of `_analyze` over the queried batch: each successful
record commits its detail (and the SKIPPED flag for a 終了 status)
immediately; an analysis error rolls back the (empty) pending transaction
and aborts the whole pass, keeping earlier commits. -/
def analyzeLoop : Db → List NagaokaRawText → Db
  | db, [] => db
  | db, r :: rest =>
    match analyzeText r with
    | .error _ => db
    | .ok d =>
      let rows2 :=
        if d.status = DisasterStatus.«終了» then
          db.rows.map (fun x =>
            if x.id = r.id then { x with notify_status := NotifyStatus.SKIPPED }
            else x)
        else db.rows
      analyzeLoop { db with rows := rows2, details := db.details ++ [d] } rest

/-- `FwdNagaoka._analyze`: query the raw rows with no committed detail
(`detail_info == null`) and run the loop on them. -/
def analyzeRun (db : Db) : Db :=
  analyzeLoop db
    (db.rows.filter (fun r => !db.details.any (fun d => d.raw_text_id == r.id)))

/- ---------------------------------------------------------------- -/
/- Notifier pass (`FwdNagaoka._notify`)                              -/
/- ---------------------------------------------------------------- -/

/-- The selection query of `_notify`: rows whose state is NOT_YET. -/
def notifySelect (db : Db) : List NagaokaRawText :=
  db.rows.filter (fun r => decide (r.notify_status = NotifyStatus.NOT_YET))

/-- Set the state of the row with the given id to NOTIFIED. -/
def markNotified (i : Nat) (rows : List NagaokaRawText) :
    List NagaokaRawText :=
  rows.map (fun x =>
    if x.id = i then { x with notify_status := NotifyStatus.NOTIFIED } else x)

/-- The loop body of `_notify` over the selected batch: `sendOk` tells
whether the Discord post for a record succeeds; a failed post raises,
rolling back the (empty) pending transaction and aborting the pass, while
each success commits NOTIFIED immediately. -/
def notifyLoop (sendOk : NagaokaRawText → Bool) :
    Db → List NagaokaRawText → Db
  | db, [] => db
  | db, r :: rest =>
    if sendOk r then
      notifyLoop sendOk { db with rows := markNotified r.id db.rows } rest
    else db

/-- `FwdNagaoka._notify`: one dispatch pass. -/
def notifyRun (sendOk : NagaokaRawText → Bool) (db : Db) : Db :=
  notifyLoop sendOk db (notifySelect db)

/-- Repeated dispatch passes (process restarts between passes). -/
def notifyRunSeq (sends : List (NagaokaRawText → Bool)) (db : Db) : Db :=
  sends.foldl (fun d s => notifyRun s d) db

/- ---------------------------------------------------------------- -/
/- Segmenter (`FwdNagaoka._split_webtext`) and the pipeline          -/
/- ---------------------------------------------------------------- -/

/-- `FwdNagaoka._cleansing_webtext`: replace every ideographic space. -/
def cleansing (s : Str) : Str := s.map (fun c => if c = '　' then ' ' else c)

def mark1 : Str := str "↓現在発生している災害↓"
def mark2 : Str := str "↑現在発生している災害↑"
def mark3 : Str := str "↓過去の災害経過情報↓"
def mark4 : Str := str "↑過去の災害経過情報↑"

/-- `pat` occurs in `s` at index `i`. -/
def occursAtB (pat s : Str) (i : Nat) : Bool := startsWith pat (s.drop i)

/-- Greatest element of a candidate list (a greedy `.+` keeps the rightmost
viable continuation). -/
def maxCand : List Nat → Option Nat
  | [] => none
  | a :: as => some (as.foldl Nat.max a)

/-- Match positions for `mark4` with at least one character after it
(the trailing `.+`). -/
def viable4 (s : Str) (i : Nat) : Bool :=
  occursAtB mark4 s i && decide (i + mark4.length < s.length)

def cands4 (s : Str) (lo : Nat) : List Nat :=
  (List.range s.length).filter (fun i => decide (lo ≤ i) && viable4 s i)

/-- Match positions for `mark3` from which the rest of the pattern can
still match. -/
def viable3 (s : Str) (i : Nat) : Bool :=
  occursAtB mark3 s i && !(cands4 s (i + mark3.length + 1)).isEmpty

def cands3 (s : Str) (lo : Nat) : List Nat :=
  (List.range s.length).filter (fun i => decide (lo ≤ i) && viable3 s i)

def viable2 (s : Str) (i : Nat) : Bool :=
  occursAtB mark2 s i && !(cands3 s (i + mark2.length + 1)).isEmpty

def cands2 (s : Str) (lo : Nat) : List Nat :=
  (List.range s.length).filter (fun i => decide (lo ≤ i) && viable2 s i)

def viable1 (s : Str) (i : Nat) : Bool :=
  occursAtB mark1 s i && !(cands2 s (i + mark1.length + 1)).isEmpty

def cands1 (s : Str) : List Nat :=
  (List.range s.length).filter (fun i => decide (1 ≤ i) && viable1 s i)

/-- `FwdNagaoka._split_webtext`: `re.match` of
`.+↓現在発生している災害↓(.+)↑現在発生している災害↑.+↓過去の災害経過情報↓(.+)↑過去の災害経過情報↑.+`
with `re.DOTALL`.  Every quantifier is greedy, so each marker is matched at
the rightmost position that still lets the remainder match; a failed match
raises `ValueError`. -/
def splitWebtext (s : Str) : Except Unit (Str × Str) :=
  match maxCand (cands1 s) with
  | none => .error ()
  | some i1 =>
    let j1 := i1 + mark1.length
    match maxCand (cands2 s (j1 + 1)) with
    | none => .error ()
    | some i2 =>
      let g1 := (s.drop j1).take (i2 - j1)
      let j2 := i2 + mark2.length
      match maxCand (cands3 s (j2 + 1)) with
      | none => .error ()
      | some i3 =>
        let j3 := i3 + mark3.length
        match maxCand (cands4 s (j3 + 1)) with
        | none => .error ()
        | some i4 => .ok (g1, (s.drop j3).take (i4 - j3))

/-- `FwdNagaoka.execute` after the page download: segmentation, the two
ingestion passes, the analyzer pass and the dispatch pass; any exception
is caught at the top, so a segmentation failure leaves the state as it
was. -/
def executeOnce (db : Db) (page : Str) (now : PyDateTime)
    (sendOk : NagaokaRawText → Bool) : Db :=
  match splitWebtext (cleansing page) with
  | .error _ => db
  | .ok (curr, past) =>
    notifyRun sendOk
      (analyzeRun
        (commitDisasterListPast
          (commitDisasterListCurr db curr now none) past now none))

deriving instance DecidableEq for Except

/- ---------------------------------------------------------------- -/
/- Helper lemmas                                                     -/
/- ---------------------------------------------------------------- -/

theorem mkDatetime_ok_eq (y mo da ho mi : Nat) (dt : PyDateTime)
    (h : mkDatetime y mo da ho mi = .ok dt) : dt = ⟨y, mo, da, ho, mi⟩ := by
  unfold mkDatetime at h
  split at h
  · exact (Except.ok.inj h).symm
  · exact absurd h (by simp)

/-- Inversion of a successful `analyzeText`: the groups of the two matches
and the derived fields the source assigns from them. -/
theorem analyzeText_ok_build (raw : NagaokaRawText) (d : NagaokaDisasterDetail)
    (h : analyzeText raw = .ok d) :
    ∃ m1 openDt addr cat statusStr a2 a3 st closeDt,
      mFirst raw.raw_text = some m1 ∧
      mkDatetime
        (if raw.retr_dt.month < m1.month then raw.retr_dt.year - 1
         else raw.retr_dt.year) m1.month m1.day m1.hour m1.minute = .ok openDt ∧
      mSecond m1.next = some (addr, cat, statusStr) ∧
      splitAddr addr = .ok (a2, a3) ∧
      statusAndClose raw.text_pos statusStr openDt = .ok (st, closeDt) ∧
      d = { raw_text_id := raw.id
            main_category := classifyCategory cat
            sub_category := cat
            open_dt := openDt
            close_dt := closeDt
            status := st
            address1 := if m1.city ≠ str "長岡市" then some m1.city else none
            address2 := a2
            address3 := if !a3.isEmpty then some a3 else none } := by
  unfold analyzeText at h
  cases h1 : mFirst raw.raw_text with
  | none => simp [h1] at h
  | some m1 =>
    simp only [h1] at h
    cases hmk : mkDatetime
        (if raw.retr_dt.month < m1.month then raw.retr_dt.year - 1
         else raw.retr_dt.year) m1.month m1.day m1.hour m1.minute with
    | error e => simp [hmk] at h
    | ok openDt =>
      simp only [hmk] at h
      cases hm2 : mSecond m1.next with
      | none => simp [hm2] at h
      | some t =>
        obtain ⟨addr, cat, statusStr⟩ := t
        simp only [hm2] at h
        cases hsp : splitAddr addr with
        | error e => simp [hsp] at h
        | ok p2 =>
          obtain ⟨a2, a3⟩ := p2
          simp only [hsp] at h
          cases hsc : statusAndClose raw.text_pos statusStr openDt with
          | error e => simp [hsc] at h
          | ok p3 =>
            obtain ⟨st, closeDt⟩ := p3
            simp only [hsc, Except.ok.injEq] at h
            exact ⟨m1, openDt, addr, cat, statusStr, a2, a3, st, closeDt,
              rfl, hmk, hm2, hsp, hsc, h.symm⟩

theorem stripNl_of_noNl (s : Str) (h : noNl s = true) : stripNl s = s := by
  unfold stripNl
  split
  · next restRev hr =>
      exfalso
      have hmem : '\n' ∈ s := by
        refine List.mem_reverse.mp ?_
        rw [hr]
        exact List.mem_cons_self _ _
      have := (List.all_eq_true.mp h) _ hmem
      simp at this
  · rfl

/- ---------------------------------------------------------------- -/
/- Concrete fixtures (statements of the bulletin shape)              -/
/- ---------------------------------------------------------------- -/

/-- Spec §8 scenario A: a current-zone dispatch statement. -/
def rawA : NagaokaRawText :=
  { id := 1
    raw_text := str "03月05日 09:15 長岡市 中央一丁目 ○○に建物火災のため消防車が出動しました。"
    retr_dt := ⟨2023, 3, 10, 12, 0⟩
    text_pos := TextPosition.CURR
    notify_status := NotifyStatus.NOT_YET }

/-- A statement that does not match the stage-1 grammar. -/
def rawBad : NagaokaRawText :=
  { id := 2
    raw_text := str "不正な形式の文字列です。"
    retr_dt := ⟨2023, 3, 10, 12, 0⟩
    text_pos := TextPosition.CURR
    notify_status := NotifyStatus.NOT_YET }

/-- A second well-formed current-zone statement. -/
def rawA2 : NagaokaRawText :=
  { id := 3
    raw_text := str "03月06日 09:15 長岡市 中央一丁目 ○○に建物火災のため消防車が出動しました。"
    retr_dt := ⟨2023, 3, 10, 12, 0⟩
    text_pos := TextPosition.CURR
    notify_status := NotifyStatus.NOT_YET }

/-- Scenario A with an address clause containing no space. -/
def raw5 : NagaokaRawText :=
  { rawA with
      raw_text := str "03月05日 09:15 長岡市 中央一丁目に建物火災のため消防車が出動しました。" }

/-- A December statement retrieved in January (year rollover). -/
def rawRolled : NagaokaRawText :=
  { id := 4
    raw_text := str "12月05日 09:15 長岡市 中央 ○に建物火災のため11:00鎮火しました。"
    retr_dt := ⟨2024, 1, 10, 12, 0⟩
    text_pos := TextPosition.PAST
    notify_status := NotifyStatus.NOT_YET }

/-- A statement whose category clause contains both the fire keyword and
the rescue keyword, and whose status clause matches no phrase. -/
def rawB : NagaokaRawText :=
  { id := 5
    raw_text := str "03月05日 09:15 長岡市 中央 ○に火災救助のため何かをしました。"
    retr_dt := ⟨2023, 3, 10, 12, 0⟩
    text_pos := TextPosition.CURR
    notify_status := NotifyStatus.NOT_YET }

/-- The detail the analyzer derives from `rawRolled`. -/
def dRolled : NagaokaDisasterDetail :=
  { raw_text_id := 4
    main_category := DisasterMainCategory.«火災»
    sub_category := str "建物火災"
    open_dt := ⟨2023, 12, 5, 9, 15⟩
    close_dt := some ⟨2023, 12, 5, 11, 0⟩
    status := DisasterStatus.«鎮火»
    address1 := none
    address2 := str "中央"
    address3 := some (str "○") }

/-- The stage-1 groups of `rawRolled`. -/
def m1Rolled : Stage1 :=
  ⟨12, 5, 9, 15, str "長岡市", str "中央 ○に建物火災のため11:00鎮火しました"⟩

/-- The detail the analyzer derives from `rawA` (scenario A). -/
def dA : NagaokaDisasterDetail :=
  { raw_text_id := 1
    main_category := DisasterMainCategory.«火災»
    sub_category := str "建物火災"
    open_dt := ⟨2023, 3, 5, 9, 15⟩
    close_dt := none
    status := DisasterStatus.«発生»
    address1 := none
    address2 := str "中央一丁目"
    address3 := some (str "○○") }

/-- The stage-1 groups of `rawA`. -/
def m1A : Stage1 :=
  ⟨3, 5, 9, 15, str "長岡市", str "中央一丁目 ○○に建物火災のため消防車が出動しました"⟩

/-- The detail the analyzer derives from `rawB`. -/
def dB : NagaokaDisasterDetail :=
  { raw_text_id := 5
    main_category := DisasterMainCategory.«火災»
    sub_category := str "火災救助"
    open_dt := ⟨2023, 3, 5, 9, 15⟩
    close_dt := none
    status := DisasterStatus.«終了»
    address1 := none
    address2 := str "中央"
    address3 := some (str "○") }

/-- The stage-1 groups of `rawB`. -/
def m1B : Stage1 :=
  ⟨3, 5, 9, 15, str "長岡市", str "中央 ○に火災救助のため何かをしました"⟩

/- ---------------------------------------------------------------- -/
/- C3 — year inference                                               -/
/- ---------------------------------------------------------------- -/

/-- C3: whenever the stage-1 parse of a statement succeeds with month
group `m1.month` and the analyzer commits a detail for it, the year of
`open_dt` is the retrieval year minus one when the retrieval month is
smaller than the parsed month, and the retrieval year otherwise. -/
theorem year_inference_correct (raw : NagaokaRawText) (m1 : Stage1)
    (d : NagaokaDisasterDetail)
    (h1 : mFirst raw.raw_text = some m1)
    (h2 : analyzeText raw = .ok d) :
    d.open_dt.year =
      if raw.retr_dt.month < m1.month then raw.retr_dt.year - 1
      else raw.retr_dt.year := by
  obtain ⟨m1b, openDt, addr, cat, statusStr, a2, a3, st, cd,
    hm, hmk, _, _, _, hd⟩ := analyzeText_ok_build raw d h2
  rw [h1] at hm
  have hm1 : m1 = m1b := Option.some.inj hm
  subst hm1
  have hopen := mkDatetime_ok_eq _ _ _ _ _ _ hmk
  rw [hd, hopen]

/-- Witness for C3 at `rawRolled` (December event retrieved in January:
the inferred year is the retrieval year minus one). -/
theorem year_inference_witness :
    dRolled.open_dt.year =
      if rawRolled.retr_dt.month < m1Rolled.month then rawRolled.retr_dt.year - 1
      else rawRolled.retr_dt.year :=
  year_inference_correct rawRolled m1Rolled dRolled (by rfl) (by rfl)

/- ---------------------------------------------------------------- -/
/- C7 — zone-dependent status for dispatch-only statements           -/
/- ---------------------------------------------------------------- -/

/-- C7: when the status clause of an analyzed statement contains the
"dispatch made" phrase, the committed status is 発生 (OPENED) exactly for
the CURRENT zone and 終了 (CLOSED) for the PAST zone; when the clause
contains none of the five listed phrases, the committed status is the
fallback 終了. -/
theorem dispatch_status_zone (raw : NagaokaRawText) (m1 : Stage1)
    (addr cat statusStr : Str) (d : NagaokaDisasterDetail)
    (h1 : mFirst raw.raw_text = some m1)
    (h2 : mSecond m1.next = some (addr, cat, statusStr))
    (hok : analyzeText raw = .ok d) :
    (hasSub (str "消防車が出動しました") statusStr = true →
      d.status =
        if raw.text_pos = TextPosition.CURR then DisasterStatus.«発生»
        else DisasterStatus.«終了») ∧
    (hasSub (str "消防車が出動しました") statusStr = false →
      hasSub (str "救助終了しました") statusStr = false →
      hasSub (str "消火の必要はありませんでした") statusStr = false →
      hasSub (str "鎮圧しました") statusStr = false →
      hasSub (str "鎮火しました") statusStr = false →
      d.status = DisasterStatus.«終了») := by
  obtain ⟨m1b, openDt, addrb, catb, stsb, a2, a3, st, cd,
    hm, hmk, hm2, hsp, hsc, hd⟩ := analyzeText_ok_build raw d hok
  rw [h1] at hm
  have hm1 : m1 = m1b := Option.some.inj hm
  subst hm1
  rw [h2] at hm2
  obtain ⟨ha, hc, hs⟩ : addr = addrb ∧ cat = catb ∧ statusStr = stsb := by
    have := Option.some.inj hm2
    simp only [Prod.mk.injEq] at this
    exact ⟨this.1, this.2.1, this.2.2⟩
  subst ha; subst hc; subst hs
  constructor
  · intro hdisp
    unfold statusAndClose at hsc
    rw [if_pos hdisp] at hsc
    have := Except.ok.inj hsc
    rw [hd]
    simp only [Prod.mk.injEq] at this
    exact this.1.symm
  · intro hn1 hn2 hn3 hn4 hn5
    unfold statusAndClose at hsc
    rw [if_neg (by simp [hn1]), if_neg (by simp [hn2]), if_neg (by simp [hn3]),
      if_neg (by simp [hn4]), if_neg (by simp [hn5])] at hsc
    have := Except.ok.inj hsc
    rw [hd]
    simp only [Prod.mk.injEq] at this
    exact this.1.symm

/-- Witness for C7 at scenario A (`rawA`, CURRENT zone, dispatch phrase
present): the committed status is 発生. -/
theorem dispatch_status_zone_witness :
    dA.status =
      if rawA.text_pos = TextPosition.CURR then DisasterStatus.«発生»
      else DisasterStatus.«終了» :=
  (dispatch_status_zone rawA m1A (str "中央一丁目 ○○") (str "建物火災")
    (str "消防車が出動しました") dA (by rfl) (by rfl) (by rfl)).1 (by rfl)

/- ---------------------------------------------------------------- -/
/- C8 — category classification priority                             -/
/- ---------------------------------------------------------------- -/

/-- C8: the committed main category is the first keyword of the fixed
order 火災, 救助, 警戒, 救急 contained in the category clause (その他 when
none is), the clause itself is stored unchanged as `sub_category`, and in
particular a clause containing both the fire and the rescue keyword is
classified 火災. -/
theorem category_priority (raw : NagaokaRawText) (m1 : Stage1)
    (addr cat statusStr : Str) (d : NagaokaDisasterDetail)
    (h1 : mFirst raw.raw_text = some m1)
    (h2 : mSecond m1.next = some (addr, cat, statusStr))
    (hok : analyzeText raw = .ok d) :
    d.main_category =
      (if hasSub (str "火災") cat then DisasterMainCategory.«火災»
       else if hasSub (str "救助") cat then DisasterMainCategory.«救助»
       else if hasSub (str "警戒") cat then DisasterMainCategory.«警戒»
       else if hasSub (str "救急") cat then DisasterMainCategory.«救急支援»
       else DisasterMainCategory.«その他») ∧
    d.sub_category = cat ∧
    (hasSub (str "火災") cat = true → hasSub (str "救助") cat = true →
      d.main_category = DisasterMainCategory.«火災») := by
  obtain ⟨m1b, openDt, addrb, catb, stsb, a2, a3, st, cd,
    hm, hmk, hm2, hsp, hsc, hd⟩ := analyzeText_ok_build raw d hok
  rw [h1] at hm
  have hm1 : m1 = m1b := Option.some.inj hm
  subst hm1
  rw [h2] at hm2
  obtain ⟨ha, hc, hs⟩ : addr = addrb ∧ cat = catb ∧ statusStr = stsb := by
    have := Option.some.inj hm2
    simp only [Prod.mk.injEq] at this
    exact ⟨this.1, this.2.1, this.2.2⟩
  subst ha; subst hc; subst hs
  refine ⟨by rw [hd]; rfl, by rw [hd], ?_⟩
  intro hf hr
  rw [hd]
  show classifyCategory cat = DisasterMainCategory.«火災»
  unfold classifyCategory
  rw [if_pos hf]

/-- Witness for C8 at `rawB`, whose category clause 火災救助 contains both
the fire and the rescue keyword: the committed category is 火災. -/
theorem category_priority_witness :
    dB.main_category = DisasterMainCategory.«火災» :=
  (category_priority rawB m1B (str "中央 ○") (str "火災救助")
    (str "何かをしました") dB (by rfl) (by rfl) (by rfl)).2.2 (by rfl) (by rfl)

/- ---------------------------------------------------------------- -/
/- C1 — analyzer pass behaviour on a ParseError                      -/
/- ---------------------------------------------------------------- -/

/-- C1 (behaviour at the failing input): in a batch of three unanalyzed
statements where the second fails stage-1 parsing, the detail committed
for the first statement is kept, but the pass aborts at the failing
record: the third statement is analyzable (`analyzeText` succeeds on it),
yet after the pass only the first statement has a committed detail.  The
single try/except of `_analyze` wraps the whole loop, so the claimed
per-record isolation does not hold. -/
theorem analyzer_pass_aborts_on_parse_error :
    analyzeText rawBad = .error () ∧
    analyzeText rawA2 = .ok { dA with raw_text_id := 3, open_dt := ⟨2023, 3, 6, 9, 15⟩ } ∧
    (analyzeRun ⟨[rawA, rawBad, rawA2], [], 4⟩).details.map
        (fun d => d.raw_text_id) = [1] :=
  ⟨rfl, rfl, rfl⟩

/- ---------------------------------------------------------------- -/
/- C5 — address decomposition without a space                        -/
/- ---------------------------------------------------------------- -/

/-- C5 (behaviour at the failing input): `raw5` parses through both
stages with the spaceless address clause 中央一丁目, but the two-element
tuple unpacking of `split(" ")` raises, so the analysis of the statement
fails instead of committing a detail with an absent `address3`. -/
theorem address_nospace_crash :
    mFirst raw5.raw_text = some
      ⟨3, 5, 9, 15, str "長岡市", str "中央一丁目に建物火災のため消防車が出動しました"⟩ ∧
    mSecond (str "中央一丁目に建物火災のため消防車が出動しました") = some
      (str "中央一丁目", str "建物火災", str "消防車が出動しました") ∧
    (' ' ∈ str "中央一丁目") = False ∧
    splitAddr (str "中央一丁目") = .error () ∧
    analyzeText raw5 = .error () :=
  ⟨rfl, rfl, by simp [str], rfl, rfl⟩

/- ---------------------------------------------------------------- -/
/- C4 — close-time inference                                         -/
/- ---------------------------------------------------------------- -/

/-- The spec-side reading of "the clause begins with an HH:MM time": two
digits, a colon, two digits at the start of the clause. -/
def specBeginsHHMM : Str → Bool
  | c1 :: c2 :: ':' :: c3 :: c4 :: _ =>
    isDigitCh c1 && isDigitCh c2 && isDigitCh c3 && isDigitCh c4
  | _ => false

/-- C4 counterexample: the clause `14:30` begins with an HH:MM time, yet
`_get_close_dt` returns `None` — its pattern `\d{2}:\d{2}.+$` demands at
least one character after the minutes, so the claim as stated fails. -/
theorem close_time_cex :
    specBeginsHHMM (str "14:30") = true ∧
    getCloseDt (str "14:30") ⟨2023, 3, 5, 10, 0⟩ = .ok none :=
  ⟨rfl, rfl⟩

theorem parseCloseTime_none_of_noPrefix (s : Str)
    (hs : specBeginsHHMM s = false) : parseCloseTime s = none := by
  match s with
  | [] => rfl
  | [a1] => rfl
  | a1 :: a2 :: t2 =>
    by_cases hd12 : (isDigitCh a1 && isDigitCh a2) = true
    · simp only [parseCloseTime, digit2, hd12, if_pos, Option.bind_eq_bind,
        Option.some_bind]
      match t2 with
      | [] => rfl
      | a3 :: t3 =>
        by_cases hcolon : a3 = ':'
        · subst hcolon
          match t3 with
          | [] => simp [digit2]
          | [a4] => simp [digit2]
          | a4 :: a5 :: t5 =>
            by_cases hd45 : (isDigitCh a4 && isDigitCh a5) = true
            · exfalso
              simp only [Bool.and_eq_true] at hd12 hd45
              simp [specBeginsHHMM, hd12.1, hd12.2, hd45.1, hd45.2] at hs
            · simp [digit2, hd45]
        · split
          · next heq =>
              exfalso
              exact hcolon (List.cons.inj heq).1
          · rfl
    · simp [parseCloseTime, digit2, hd12]

/-- C4 as amended: for a status clause that begins with an HH:MM time
*followed by at least one further (newline-free) character*, with the time
fields in range and a valid `open_dt`, `_get_close_dt` returns the close
instant on `open_dt`'s calendar date, advanced by exactly one day when it
is strictly earlier than `open_dt`; and a clause with no HH:MM prefix at
all yields `None`. -/
theorem close_time_inference (o : PyDateTime) (ho : validDate o = true)
    (c1 c2 c3 c4 : Char) (rest : Str)
    (h1 : isDigitCh c1 = true) (h2 : isDigitCh c2 = true)
    (h3 : isDigitCh c3 = true) (h4 : isDigitCh c4 = true)
    (hrest : rest ≠ []) (hnl : noNl rest = true)
    (hh : 10 * digitVal c1 + digitVal c2 ≤ 23)
    (hm : 10 * digitVal c3 + digitVal c4 ≤ 59) :
    (getCloseDt (c1 :: c2 :: ':' :: c3 :: c4 :: rest) o =
      .ok (some
        (if dtLt ⟨o.year, o.month, o.day,
             10 * digitVal c1 + digitVal c2, 10 * digitVal c3 + digitVal c4⟩ o
         then addOneDay ⟨o.year, o.month, o.day,
             10 * digitVal c1 + digitVal c2, 10 * digitVal c3 + digitVal c4⟩
         else ⟨o.year, o.month, o.day,
             10 * digitVal c1 + digitVal c2, 10 * digitVal c3 + digitVal c4⟩))) ∧
    (∀ s, specBeginsHHMM s = false → getCloseDt s o = .ok none) := by
  constructor
  · have hpc : parseCloseTime (c1 :: c2 :: ':' :: c3 :: c4 :: rest) =
        some (10 * digitVal c1 + digitVal c2, 10 * digitVal c3 + digitVal c4) := by
      unfold parseCloseTime
      simp only [digit2, h1, h2, h3, h4, Bool.and_self, if_pos, Option.bind_eq_bind,
        Option.some_bind]
      have hd : dotPlusDollar rest = true := by
        unfold dotPlusDollar
        rw [stripNl_of_noNl rest hnl]
        simp [hrest, hnl]
      rw [hd]
      simp
    have hv : validDate ⟨o.year, o.month, o.day,
        10 * digitVal c1 + digitVal c2, 10 * digitVal c3 + digitVal c4⟩ = true := by
      unfold validDate at ho ⊢
      simp only [Bool.and_eq_true, decide_eq_true_eq] at ho ⊢
      exact ⟨⟨⟨⟨⟨⟨⟨ho.1.1.1.1.1.1.1, ho.1.1.1.1.1.1.2⟩, ho.1.1.1.1.1.2⟩,
        ho.1.1.1.1.2⟩, ho.1.1.1.2⟩, ho.1.1.2⟩, hh⟩, hm⟩
    unfold getCloseDt mkDatetime
    simp only [hpc]
    simp [hv]
  · intro s hs
    unfold getCloseDt
    rw [parseCloseTime_none_of_noPrefix s hs]

/-- Witness for C4 (spec §8 scenario C): closing time 00:10 with an open
instant at 23:50 rolls the close date to the following day. -/
theorem close_time_witness :
    getCloseDt (str "00:10鎮火しました") ⟨2023, 3, 5, 23, 50⟩ =
      .ok (some ⟨2023, 3, 6, 0, 10⟩) :=
  ((close_time_inference ⟨2023, 3, 5, 23, 50⟩ (by decide) '0' '0' '1' '0'
    (str "鎮火しました") (by decide) (by decide) (by decide) (by decide)
    (by simp [str]) (by decide) (by decide) (by decide)).1).trans (by rfl)

/- ---------------------------------------------------------------- -/
/- C2 — deduplicating ingestion is idempotent                        -/
/- ---------------------------------------------------------------- -/

theorem insertIfAbsent_rows (p : PyDateTime) (pos : TextPosition)
    (ns : NotifyStatus) (db : Db) (m : Str) :
    ∃ new, (insertIfAbsent p pos ns db m).rows = db.rows ++ new := by
  unfold insertIfAbsent
  split
  · exact ⟨[], by simp⟩
  · exact ⟨[⟨db.nextId, m, p, pos, ns⟩], rfl⟩

theorem foldIns_rows (p : PyDateTime) (pos : TextPosition) (ns : NotifyStatus) :
    ∀ (ms : List Str) (db : Db),
      ∃ new, (ms.foldl (insertIfAbsent p pos ns) db).rows = db.rows ++ new := by
  intro ms
  induction ms with
  | nil => intro db; exact ⟨[], by simp⟩
  | cons m rest ih =>
    intro db
    obtain ⟨n1, h1⟩ := insertIfAbsent_rows p pos ns db m
    obtain ⟨n2, h2⟩ := ih (insertIfAbsent p pos ns db m)
    exact ⟨n1 ++ n2, by
      simp only [List.foldl_cons, h2, h1, List.append_assoc]⟩

theorem registered_of_append (db db' : Db) (m : Str) (pos : TextPosition)
    (new : List NagaokaRawText) (h : db'.rows = db.rows ++ new)
    (hr : registered db m pos = true) : registered db' m pos = true := by
  unfold registered at hr ⊢
  rw [h, List.any_append, hr, Bool.true_or]

theorem insertIfAbsent_registered (p : PyDateTime) (pos : TextPosition)
    (ns : NotifyStatus) (db : Db) (m : Str) :
    registered (insertIfAbsent p pos ns db m) m pos = true := by
  unfold insertIfAbsent
  split
  · assumption
  · unfold registered
    simp

theorem foldIns_registered (p : PyDateTime) (pos : TextPosition)
    (ns : NotifyStatus) : ∀ (ms : List Str) (db : Db) (m : Str), m ∈ ms →
      registered (ms.foldl (insertIfAbsent p pos ns) db) m pos = true := by
  intro ms
  induction ms with
  | nil => intro db m h; simp at h
  | cons m0 rest ih =>
    intro db m h
    rcases List.mem_cons.mp h with h0 | h0
    · subst h0
      obtain ⟨new, hnew⟩ := foldIns_rows p pos ns rest (insertIfAbsent p pos ns db m)
      exact registered_of_append _ _ _ _ _ hnew
        (insertIfAbsent_registered p pos ns db m)
    · exact ih _ _ h0

theorem foldIns_nop (p : PyDateTime) (pos : TextPosition) (ns : NotifyStatus) :
    ∀ (ms : List Str) (db : Db), (∀ m ∈ ms, registered db m pos = true) →
      ms.foldl (insertIfAbsent p pos ns) db = db := by
  intro ms
  induction ms with
  | nil => intro db _; rfl
  | cons m0 rest ih =>
    intro db h
    have h0 : insertIfAbsent p pos ns db m0 = db := by
      unfold insertIfAbsent
      rw [if_pos (h m0 (List.mem_cons_self _ _))]
    rw [List.foldl_cons, h0]
    exact ih db (fun m hm => h m (List.mem_cons_of_mem _ hm))

/-- C2: each ingestion pass only appends rows (existing rows are never
mutated), and a second pass over the same zone text — whatever its
retrieval timestamp or backfill flag — is a no-op on the whole state, for
the current zone and for the past zone alike. -/
theorem ingestion_idempotent (db : Db) (text : Str) (now1 now2 : PyDateTime)
    (e1 e2 : Option PyDateTime) :
    (∃ new, (commitDisasterListCurr db text now1 e1).rows = db.rows ++ new) ∧
    commitDisasterListCurr (commitDisasterListCurr db text now1 e1) text now2 e2 =
      commitDisasterListCurr db text now1 e1 ∧
    (∃ new, (commitDisasterListPast db text now1 e1).rows = db.rows ++ new) ∧
    commitDisasterListPast (commitDisasterListPast db text now1 e1) text now2 e2 =
      commitDisasterListPast db text now1 e1 := by
  unfold commitDisasterListCurr commitDisasterListPast
  refine ⟨foldIns_rows _ _ _ _ _, ?_, foldIns_rows _ _ _ _ _, ?_⟩
  · exact foldIns_nop _ _ _ _ _
      (fun m hm => foldIns_registered _ _ _ _ _ _ hm)
  · exact foldIns_nop _ _ _ _ _
      (fun m hm => foldIns_registered _ _ _ _ _ _ hm)

/- ---------------------------------------------------------------- -/
/- C6 — dispatcher exactly-once                                      -/
/- ---------------------------------------------------------------- -/

/-- The prefix of a dispatch batch processed before the first send
failure (all of it when every send succeeds). -/
def sentHead (sendOk : NagaokaRawText → Bool) : List NagaokaRawText → List NagaokaRawText
  | [] => []
  | r :: rest => if sendOk r then r :: sentHead sendOk rest else []

/-- Mark a row NOTIFIED when its id is in the given id list. -/
def markIfIn (ids : List Nat) (x : NagaokaRawText) : NagaokaRawText :=
  if x.id ∈ ids then { x with notify_status := NotifyStatus.NOTIFIED } else x

theorem sentHead_cons (sendOk : NagaokaRawText → Bool) (r : NagaokaRawText)
    (rest : List NagaokaRawText) :
    sentHead sendOk (r :: rest) =
      if sendOk r then r :: sentHead sendOk rest else [] := rfl

theorem notifyLoop_cons (sendOk : NagaokaRawText → Bool) (db : Db)
    (r : NagaokaRawText) (rest : List NagaokaRawText) :
    notifyLoop sendOk db (r :: rest) =
      if sendOk r then
        notifyLoop sendOk { db with rows := markNotified r.id db.rows } rest
      else db := rfl

theorem markIfIn_nil (x : NagaokaRawText) : markIfIn [] x = x := by
  unfold markIfIn
  simp

theorem markIfIn_comm (rid : Nat) (ids : List Nat) (x : NagaokaRawText) :
    markIfIn ids
      (if x.id = rid then { x with notify_status := NotifyStatus.NOTIFIED }
       else x) = markIfIn (rid :: ids) x := by
  cases x with
  | mk xid xrt xrd xtp xns =>
    unfold markIfIn
    by_cases hxr : xid = rid
    · subst hxr
      by_cases h2 : xid ∈ ids <;> simp [h2]
    · by_cases h2 : xid ∈ ids <;> simp [hxr, h2]

theorem map_markIfIn_nil (rows : List NagaokaRawText) :
    rows.map (markIfIn []) = rows := by
  induction rows with
  | nil => rfl
  | cons x xs ih => rw [List.map_cons, markIfIn_nil, ih]

theorem notifyLoop_rows (sendOk : NagaokaRawText → Bool) :
    ∀ (l : List NagaokaRawText) (db : Db),
      notifyLoop sendOk db l =
        { db with rows :=
            db.rows.map (markIfIn ((sentHead sendOk l).map (fun r => r.id))) } := by
  intro l
  induction l with
  | nil =>
    intro db
    show db = _
    rw [show sentHead sendOk [] = [] from rfl]
    rw [List.map_nil, map_markIfIn_nil]
  | cons r rest ih =>
    intro db
    rw [notifyLoop_cons]
    by_cases hs : sendOk r = true
    · rw [if_pos hs, ih]
      have hids : (sentHead sendOk (r :: rest)).map (fun r => r.id) =
          r.id :: (sentHead sendOk rest).map (fun r => r.id) := by
        rw [sentHead_cons, if_pos hs, List.map_cons]
      rw [hids]
      have hrows : (markNotified r.id db.rows).map
            (markIfIn ((sentHead sendOk rest).map (fun r => r.id))) =
          db.rows.map
            (markIfIn (r.id :: (sentHead sendOk rest).map (fun r => r.id))) := by
        unfold markNotified
        rw [List.map_map]
        refine List.map_congr_left ?_
        intro x _
        simp only [Function.comp_apply]
        exact markIfIn_comm r.id _ x
      rw [hrows]
    · rw [if_neg hs]
      rw [show sentHead sendOk (r :: rest) = [] by rw [sentHead_cons, if_neg hs]]
      rw [List.map_nil, map_markIfIn_nil]

theorem notifyRun_rows (sendOk : NagaokaRawText → Bool) (db : Db) :
    (notifyRun sendOk db).rows =
      db.rows.map (markIfIn ((sentHead sendOk (notifySelect db)).map (fun r => r.id))) := by
  rw [show notifyRun sendOk db = notifyLoop sendOk db (notifySelect db) from rfl]
  rw [notifyLoop_rows sendOk (notifySelect db) db]

/-- A row whose state is NOTIFIED is unchanged by the marking map. -/
theorem mark_self (x : NagaokaRawText)
    (h : x.notify_status = NotifyStatus.NOTIFIED) :
    { x with notify_status := NotifyStatus.NOTIFIED } = x := by
  cases x
  simp_all

theorem markIfIn_notified (ids : List Nat) (x : NagaokaRawText)
    (h : x.notify_status = NotifyStatus.NOTIFIED) : markIfIn ids x = x := by
  unfold markIfIn
  by_cases hmem : x.id ∈ ids
  · rw [if_pos hmem]
    exact mark_self x h
  · rw [if_neg hmem]

theorem notifyRun_length (sendOk : NagaokaRawText → Bool) (db : Db) :
    (notifyRun sendOk db).rows.length = db.rows.length := by
  rw [notifyRun_rows]
  simp

theorem notifyRun_get_notified (sendOk : NagaokaRawText → Bool) (db : Db)
    (i : Nat) (hi : i < db.rows.length)
    (hN : (db.rows.get ⟨i, hi⟩).notify_status = NotifyStatus.NOTIFIED) :
    ∃ h2 : i < (notifyRun sendOk db).rows.length,
      (notifyRun sendOk db).rows.get ⟨i, h2⟩ = db.rows.get ⟨i, hi⟩ := by
  have hlen : i < (notifyRun sendOk db).rows.length := by
    rw [notifyRun_length]; exact hi
  refine ⟨hlen, ?_⟩
  have h := List.get_of_eq (notifyRun_rows sendOk db) ⟨i, hlen⟩
  rw [h]
  simp only [List.get_eq_getElem, Fin.coe_cast, List.getElem_map]
  exact markIfIn_notified _ _ (by simpa using hN)

/-- No row whose state is not NOT_YET is ever in the selection. -/
theorem not_in_select (db : Db) (r : NagaokaRawText)
    (h : r.notify_status ≠ NotifyStatus.NOT_YET) : r ∉ notifySelect db := by
  intro hmem
  unfold notifySelect at hmem
  have := (List.mem_filter.mp hmem).2
  simp at this
  exact h this

theorem notifyRunSeq_cons (s : NagaokaRawText → Bool)
    (rest : List (NagaokaRawText → Bool)) (db : Db) :
    notifyRunSeq (s :: rest) db = notifyRunSeq rest (notifyRun s db) := rfl

theorem notifyRunSeq_get_notified (db : Db) :
    ∀ (sends : List (NagaokaRawText → Bool)) (i : Nat) (hi : i < db.rows.length),
      (db.rows.get ⟨i, hi⟩).notify_status = NotifyStatus.NOTIFIED →
      ∃ h2 : i < (notifyRunSeq sends db).rows.length,
        (notifyRunSeq sends db).rows.get ⟨i, h2⟩ = db.rows.get ⟨i, hi⟩ := by
  intro sends
  induction sends generalizing db with
  | nil => intro i hi hN; exact ⟨hi, rfl⟩
  | cons s rest ih =>
    intro i hi hN
    obtain ⟨h1, he⟩ := notifyRun_get_notified s db i hi hN
    obtain ⟨h2, he2⟩ := ih (notifyRun s db) i h1 (by rw [he]; exact hN)
    exact ⟨h2, he2.trans he⟩

theorem take_get_my (l : List NagaokaRawText) (n j : Nat)
    (h1 : j < (l.take n).length) (h2 : j < l.length) :
    (l.take n).get ⟨j, h1⟩ = l.get ⟨j, h2⟩ := by
  simp

theorem sentHead_take (sendOk : NagaokaRawText → Bool) :
    ∀ (l : List NagaokaRawText) (k : Nat) (hk : k < l.length),
      (∀ j (hj : j < k), sendOk (l.get ⟨j, Nat.lt_trans hj hk⟩) = true) →
      sendOk (l.get ⟨k, hk⟩) = false →
      sentHead sendOk l = l.take k := by
  intro l
  induction l with
  | nil => intro k hk; simp at hk
  | cons r rest ih =>
    intro k hk hok hfail
    cases k with
    | zero =>
      have h0 : sendOk r = false := hfail
      rw [sentHead_cons, if_neg (by simp [h0])]
      rfl
    | succ k2 =>
      have hr : sendOk r = true := hok 0 (Nat.succ_pos k2)
      rw [sentHead_cons, if_pos hr, List.take_succ_cons]
      have hk2 : k2 < rest.length := Nat.lt_of_succ_lt_succ hk
      rw [ih k2 hk2 (fun j hj => hok (j + 1) (Nat.succ_lt_succ hj)) hfail]

theorem id_inj_of_nodup (l : List NagaokaRawText)
    (h : (l.map (fun r => r.id)).Nodup) (x y : NagaokaRawText)
    (hx : x ∈ l) (hy : y ∈ l) (hid : x.id = y.id) : x = y :=
  List.inj_on_of_nodup_map h hx hy hid

/-- C6: once a record's notify state is NOTIFIED, it is not selected by
the dispatch query of this or any later pass (even across restarts) and
every later pass leaves the record unchanged; and in a pass whose send
fails at position `k` of the selected batch, the records before `k` are
committed as NOTIFIED while the records from `k` on are left untouched
(still pending, not dispatched). -/
theorem dispatcher_exactly_once
    (db : Db) (sendOk : NagaokaRawText → Bool)
    (sends : List (NagaokaRawText → Bool)) (i k : Nat)
    (hnodup : (db.rows.map (fun r => r.id)).Nodup)
    (hi : i < db.rows.length)
    (hN : (db.rows.get ⟨i, hi⟩).notify_status = NotifyStatus.NOTIFIED)
    (hk : k < (notifySelect db).length)
    (hok : ∀ j (hj : j < k),
      sendOk ((notifySelect db).get ⟨j, Nat.lt_trans hj hk⟩) = true)
    (hfail : sendOk ((notifySelect db).get ⟨k, hk⟩) = false) :
    db.rows.get ⟨i, hi⟩ ∉ notifySelect db ∧
    (∃ h2 : i < (notifyRunSeq sends db).rows.length,
      (notifyRunSeq sends db).rows.get ⟨i, h2⟩ = db.rows.get ⟨i, hi⟩ ∧
      db.rows.get ⟨i, hi⟩ ∉ notifySelect (notifyRunSeq sends db)) ∧
    (∀ j (hj : j < (notifySelect db).length),
      (j < k →
        { (notifySelect db).get ⟨j, hj⟩ with
            notify_status := NotifyStatus.NOTIFIED } ∈ (notifyRun sendOk db).rows) ∧
      (k ≤ j →
        (notifySelect db).get ⟨j, hj⟩ ∈ (notifyRun sendOk db).rows)) := by
  have hselNodup : ((notifySelect db).map (fun r => r.id)).Nodup :=
    List.Nodup.sublist (List.Sublist.map _ (List.filter_sublist db.rows)) hnodup
  have hsh : sentHead sendOk (notifySelect db) = (notifySelect db).take k :=
    sentHead_take sendOk (notifySelect db) k hk hok hfail
  have hNne : (db.rows.get ⟨i, hi⟩).notify_status ≠ NotifyStatus.NOT_YET := by
    rw [hN]
    intro hc
    cases hc
  refine ⟨not_in_select db _ hNne, ?_, ?_⟩
  · obtain ⟨h2, he⟩ := notifyRunSeq_get_notified db sends i hi hN
    exact ⟨h2, he, not_in_select _ _ hNne⟩
  · intro j hj
    have hjrows : (notifySelect db).get ⟨j, hj⟩ ∈ db.rows :=
      List.mem_of_mem_filter (List.get_mem _ _ _)
    constructor
    · intro hjk
      have hjmem : (notifySelect db).get ⟨j, hj⟩ ∈ (notifySelect db).take k := by
        have hlt : j < ((notifySelect db).take k).length := by
          rw [List.length_take]
          omega
        rw [← take_get_my (notifySelect db) k j hlt hj]
        exact List.get_mem _ _ _
      have hid : ((notifySelect db).get ⟨j, hj⟩).id ∈
          (sentHead sendOk (notifySelect db)).map (fun r => r.id) := by
        rw [hsh]
        exact List.mem_map_of_mem _ hjmem
      have : markIfIn ((sentHead sendOk (notifySelect db)).map (fun r => r.id))
          ((notifySelect db).get ⟨j, hj⟩) =
          { (notifySelect db).get ⟨j, hj⟩ with
              notify_status := NotifyStatus.NOTIFIED } := by
        unfold markIfIn
        rw [if_pos hid]
      rw [notifyRun_rows, ← this]
      exact List.mem_map_of_mem _ hjrows
    · intro hkj
      have hid : ((notifySelect db).get ⟨j, hj⟩).id ∉
          (sentHead sendOk (notifySelect db)).map (fun r => r.id) := by
        rw [hsh]
        intro hmem
        obtain ⟨y, hy, hyid⟩ := List.mem_map.mp hmem
        have hysel : y ∈ notifySelect db := List.mem_of_mem_take hy
        have hyeq : y = (notifySelect db).get ⟨j, hj⟩ :=
          id_inj_of_nodup _ hselNodup _ _ hysel
            (List.get_mem _ _ _) hyid
        obtain ⟨⟨j2, hj2⟩, hg⟩ := List.mem_iff_get.mp hy
        have hj2k : j2 < k := by
          have := hj2
          rw [List.length_take] at this
          omega
        have hj2sel : j2 < (notifySelect db).length := Nat.lt_trans hj2k hk
        have : (notifySelect db).get ⟨j2, hj2sel⟩ = (notifySelect db).get ⟨j, hj⟩ := by
          rw [← take_get_my (notifySelect db) k j2 hj2 hj2sel, hg, hyeq]
        have hNodupSel : (notifySelect db).Nodup := List.Nodup.of_map _ hselNodup
        have : j2 = j := by
          have h2 := (List.Nodup.get_inj_iff hNodupSel).mp this
          exact congrArg Fin.val h2
        omega
      have : markIfIn ((sentHead sendOk (notifySelect db)).map (fun r => r.id))
          ((notifySelect db).get ⟨j, hj⟩) = (notifySelect db).get ⟨j, hj⟩ := by
        unfold markIfIn
        rw [if_neg hid]
      rw [notifyRun_rows, ← this]
      exact List.mem_map_of_mem _ hjrows

/-- Dispatch fixture: one already-notified row and three pending rows. -/
def dbW : Db :=
  { rows :=
      [⟨1, str "a", ⟨2023, 3, 1, 0, 0⟩, TextPosition.CURR, NotifyStatus.NOTIFIED⟩,
       ⟨2, str "b", ⟨2023, 3, 1, 0, 0⟩, TextPosition.CURR, NotifyStatus.NOT_YET⟩,
       ⟨3, str "c", ⟨2023, 3, 1, 0, 0⟩, TextPosition.CURR, NotifyStatus.NOT_YET⟩,
       ⟨4, str "d", ⟨2023, 3, 1, 0, 0⟩, TextPosition.CURR, NotifyStatus.NOT_YET⟩]
    details := []
    nextId := 5 }

/-- The send succeeds only for the row with id 2, so the pass fails at
position 1 of the selected batch. -/
def sendW : NagaokaRawText → Bool := fun r => r.id == 2

/-- Witness for C6 at `dbW`: the NOTIFIED row at position 0 is untouched
by a later dispatch pass and is not selected afterwards. -/
theorem dispatcher_exactly_once_witness :
    ∃ h2 : 0 < (notifyRunSeq [sendW] dbW).rows.length,
      (notifyRunSeq [sendW] dbW).rows.get ⟨0, h2⟩ =
        dbW.rows.get ⟨0, by decide⟩ ∧
      dbW.rows.get ⟨0, by decide⟩ ∉ notifySelect (notifyRunSeq [sendW] dbW) :=
  (dispatcher_exactly_once dbW sendW [sendW] 0 1 (by decide) (by decide)
    (by decide) (by decide)
    (by intro j hj
        have hj0 : j = 0 := by omega
        subst hj0
        exact (by decide :
          sendW ((notifySelect dbW).get ⟨0, by decide⟩) = true))
    (by decide)).2.1

/- ---------------------------------------------------------------- -/
/- C10 — a 終了 analysis marks the record SKIPPED                    -/
/- ---------------------------------------------------------------- -/

/-- Invariant relating committed details to notify states: a record whose
committed detail has status 終了 carries notify state SKIPPED. -/
def closedSkippedInv (db : Db) : Prop :=
  ∀ r ∈ db.rows, ∀ dd ∈ db.details,
    dd.raw_text_id = r.id → dd.status = DisasterStatus.«終了» →
      r.notify_status = NotifyStatus.SKIPPED

theorem analyzeText_raw_id (raw : NagaokaRawText) (d : NagaokaDisasterDetail)
    (h : analyzeText raw = .ok d) : d.raw_text_id = raw.id := by
  obtain ⟨m1, o, a, c, s, a2, a3, st, cd, _, _, _, _, _, hd⟩ :=
    analyzeText_ok_build raw d h
  rw [hd]

theorem analyzeLoop_cons_error (db : Db) (r : NagaokaRawText)
    (rest : List NagaokaRawText) (h : analyzeText r = .error ()) :
    analyzeLoop db (r :: rest) = db := by
  simp only [analyzeLoop, h]

theorem analyzeLoop_cons_ok (db : Db) (r : NagaokaRawText)
    (rest : List NagaokaRawText) (d : NagaokaDisasterDetail)
    (h : analyzeText r = .ok d) :
    analyzeLoop db (r :: rest) =
      analyzeLoop
        { db with
            rows := if d.status = DisasterStatus.«終了» then db.rows.map (fun x => if x.id = r.id then { x with notify_status := NotifyStatus.SKIPPED } else x) else db.rows
            details := db.details ++ [d] } rest := by
  simp only [analyzeLoop, h]

theorem analyzeLoop_inv : ∀ (l : List NagaokaRawText) (db : Db),
    closedSkippedInv db → closedSkippedInv (analyzeLoop db l) := by
  intro l
  induction l with
  | nil => intro db h; exact h
  | cons r rest ih =>
    intro db hInv
    cases hA : analyzeText r with
    | error e =>
      cases e
      rw [analyzeLoop_cons_error db r rest hA]
      exact hInv
    | ok d =>
      rw [analyzeLoop_cons_ok db r rest d hA]
      refine ih _ ?_
      intro x hx dd hdd hlink hcl
      by_cases hst : d.status = DisasterStatus.«終了»
      · rw [if_pos hst] at hx
        obtain ⟨x0, hx0, hgx⟩ := List.mem_map.mp hx
        rcases List.mem_append.mp hdd with hdd0 | hdd0
        · by_cases hid : x0.id = r.id
          · rw [← hgx, if_pos hid]
          · rw [← hgx, if_neg hid]
            refine hInv x0 hx0 dd hdd0 ?_ hcl
            rw [← hgx, if_neg hid] at hlink
            exact hlink
        · have hdd1 : dd = d := List.mem_singleton.mp hdd0
          rw [hdd1] at hlink
          have hrid := analyzeText_raw_id r d hA
          have hxid : x.id = x0.id := by
            rw [← hgx]
            by_cases hid : x0.id = r.id <;> simp [hid]
          have hx0id : x0.id = r.id := by
            rw [← hxid, ← hlink, hrid]
          rw [← hgx, if_pos hx0id]
      · rw [if_neg hst] at hx
        rcases List.mem_append.mp hdd with hdd0 | hdd0
        · exact hInv x hx dd hdd0 hlink hcl
        · have hdd1 : dd = d := List.mem_singleton.mp hdd0
          subst hdd1
          exact absurd hcl hst

/-- C10: starting from a state satisfying the detail/notify invariant
(e.g. one with no committed details), every record whose committed detail
after the analyzer pass has status 終了 carries notify state SKIPPED, so
the dispatcher never selects it — neither right after the pass nor after
any sequence of later dispatch passes. -/
theorem closed_status_skips_notification (db : Db)
    (hstart : closedSkippedInv db)
    (sends : List (NagaokaRawText → Bool))
    (r : NagaokaRawText) (dd : NagaokaDisasterDetail)
    (hr : r ∈ (analyzeRun db).rows) (hd : dd ∈ (analyzeRun db).details)
    (hlink : dd.raw_text_id = r.id) (hcl : dd.status = DisasterStatus.«終了») :
    r.notify_status = NotifyStatus.SKIPPED ∧
    r ∉ notifySelect (analyzeRun db) ∧
    r ∉ notifySelect (notifyRunSeq sends (analyzeRun db)) := by
  have hInv : closedSkippedInv (analyzeRun db) :=
    analyzeLoop_inv _ db hstart
  have hs : r.notify_status = NotifyStatus.SKIPPED := hInv r hr dd hd hlink hcl
  have hne : r.notify_status ≠ NotifyStatus.NOT_YET := by
    rw [hs]
    intro hc
    cases hc
  exact ⟨hs, not_in_select _ _ hne, not_in_select _ _ hne⟩

/-- Scenario-A statement in the PAST zone: its dispatch-only status
clause analyzes to 終了. -/
def rawP : NagaokaRawText :=
  { rawA with id := 6, text_pos := TextPosition.PAST }

def dbP : Db := { rows := [rawP], details := [], nextId := 7 }

/-- The detail committed for `rawP`. -/
def dP : NagaokaDisasterDetail :=
  { dA with raw_text_id := 6, status := DisasterStatus.«終了» }

/-- Witness for C10 at `dbP`: after the analyzer pass the record is
SKIPPED and never selected for dispatch. -/
theorem closed_status_skips_notification_witness :
    ({ rawP with notify_status := NotifyStatus.SKIPPED }).notify_status =
      NotifyStatus.SKIPPED ∧
    { rawP with notify_status := NotifyStatus.SKIPPED } ∉
      notifySelect (analyzeRun dbP) ∧
    { rawP with notify_status := NotifyStatus.SKIPPED } ∉
      notifySelect (notifyRunSeq [] (analyzeRun dbP)) :=
  closed_status_skips_notification dbP
    (by intro r hr dd hdd
        exact absurd hdd (List.not_mem_nil dd))
    [] { rawP with notify_status := NotifyStatus.SKIPPED } dP
    (by decide) (by decide) (by decide) (by decide)

/- ---------------------------------------------------------------- -/
/- C9 — segmenter failure semantics                                  -/
/- ---------------------------------------------------------------- -/

theorem startsWith_length : ∀ (p s : Str), startsWith p s = true →
    p.length ≤ s.length := by
  intro p
  induction p with
  | nil => intro s _; simp
  | cons c cs ih =>
    intro s h
    cases s with
    | nil => simp [startsWith] at h
    | cons d ds =>
      simp only [startsWith, Bool.and_eq_true] at h
      have := ih ds h.2
      simp only [List.length_cons]
      omega

theorem startsWith_append : ∀ (p r : Str), startsWith p (p ++ r) = true := by
  intro p
  induction p with
  | nil => intro r; rfl
  | cons c cs ih =>
    intro r
    simp only [List.cons_append, startsWith, Bool.and_eq_true]
    exact ⟨by simp, ih r⟩

theorem occursAtB_append (x pat r : Str) :
    occursAtB pat (x ++ (pat ++ r)) x.length = true := by
  unfold occursAtB
  rw [List.drop_left]
  exact startsWith_append pat r

theorem occursAtB_bound (pat s : Str) (i : Nat) (hp : pat ≠ [])
    (h : occursAtB pat s i = true) :
    i + pat.length ≤ s.length ∧ i < s.length := by
  unfold occursAtB at h
  have hlen := startsWith_length pat (s.drop i) h
  rw [List.length_drop] at hlen
  have hplen : 0 < pat.length := List.length_pos.mpr hp
  omega

/-- Number of indices at which `pat` occurs in `s`. -/
def occCount (pat s : Str) : Nat :=
  ((List.range s.length).filter (fun i => occursAtB pat s i)).length

theorem occ_unique (pat s : Str) (hp : pat ≠ []) (hc : occCount pat s = 1)
    (i j : Nat) (hi : occursAtB pat s i = true)
    (hj : occursAtB pat s j = true) : i = j := by
  have hib := occursAtB_bound pat s i hp hi
  have hjb := occursAtB_bound pat s j hp hj
  have hmi : i ∈ (List.range s.length).filter (fun i => occursAtB pat s i) :=
    List.mem_filter.mpr ⟨List.mem_range.mpr hib.2, hi⟩
  have hmj : j ∈ (List.range s.length).filter (fun i => occursAtB pat s i) :=
    List.mem_filter.mpr ⟨List.mem_range.mpr hjb.2, hj⟩
  unfold occCount at hc
  obtain ⟨x, hx⟩ := List.length_eq_one.mp hc
  rw [hx] at hmi hmj
  rw [List.mem_singleton.mp hmi, List.mem_singleton.mp hmj]

theorem foldl_max_mem : ∀ (as : List Nat) (a : Nat),
    as.foldl Nat.max a ∈ a :: as := by
  intro as
  induction as with
  | nil => intro a; simp
  | cons x xs ih =>
    intro a
    rw [List.foldl_cons]
    have h := ih (Nat.max a x)
    have hmax : Nat.max a x = a ∨ Nat.max a x = x := by
      rcases Nat.le_total a x with hle | hle
      · right; exact Nat.max_eq_right hle
      · left; exact Nat.max_eq_left hle
    rcases List.mem_cons.mp h with h1 | h1
    · rcases hmax with h2 | h2 <;> rw [h1, h2]
      · exact List.mem_cons_self _ _
      · exact List.mem_cons_of_mem _ (List.mem_cons_self _ _)
    · exact List.mem_cons_of_mem _ (List.mem_cons_of_mem _ h1)

theorem foldl_max_const : ∀ (as : List Nat) (a : Nat), (∀ x ∈ as, x = a) →
    as.foldl Nat.max a = a := by
  intro as
  induction as with
  | nil => intro a _; rfl
  | cons x xs ih =>
    intro a h
    have hx : x = a := h x (List.mem_cons_self _ _)
    subst hx
    rw [List.foldl_cons, show Nat.max x x = x from Nat.max_self x]
    exact ih x (fun y hy => h y (List.mem_cons_of_mem _ hy))

theorem maxCand_mem (l : List Nat) (c : Nat) (h : maxCand l = some c) :
    c ∈ l := by
  cases l with
  | nil => simp [maxCand] at h
  | cons a as =>
    simp only [maxCand, Option.some.injEq] at h
    rw [← h]
    exact foldl_max_mem as a

theorem maxCand_all_eq (l : List Nat) (c : Nat) (hne : l ≠ [])
    (hall : ∀ x ∈ l, x = c) : maxCand l = some c := by
  cases l with
  | nil => exact absurd rfl hne
  | cons a as =>
    simp only [maxCand, Option.some.injEq]
    have ha : a = c := hall a (List.mem_cons_self _ _)
    subst ha
    exact foldl_max_const as a
      (fun y hy => hall y (List.mem_cons_of_mem _ hy))

theorem bnotIsEmpty (l : List Nat) : (!l.isEmpty) = true ↔ l ≠ [] := by
  cases l <;> simp

theorem cands4_mem_iff (s : Str) (lo i : Nat) :
    i ∈ cands4 s lo ↔
      lo ≤ i ∧ occursAtB mark4 s i = true ∧ i + mark4.length < s.length := by
  unfold cands4 viable4
  rw [List.mem_filter, List.mem_range]
  constructor
  · rintro ⟨hi, hpred⟩
    simp only [Bool.and_eq_true, decide_eq_true_eq] at hpred
    exact ⟨hpred.1, hpred.2.1, hpred.2.2⟩
  · rintro ⟨hlo, hocc, hbound⟩
    refine ⟨by omega, ?_⟩
    simp only [Bool.and_eq_true, decide_eq_true_eq]
    exact ⟨hlo, hocc, hbound⟩

theorem cands3_mem_iff (s : Str) (lo i : Nat) :
    i ∈ cands3 s lo ↔
      lo ≤ i ∧ occursAtB mark3 s i = true ∧
        cands4 s (i + mark3.length + 1) ≠ [] := by
  unfold cands3 viable3
  rw [List.mem_filter, List.mem_range]
  constructor
  · rintro ⟨hi, hpred⟩
    simp only [Bool.and_eq_true, decide_eq_true_eq] at hpred
    exact ⟨hpred.1, hpred.2.1, (bnotIsEmpty _).mp hpred.2.2⟩
  · rintro ⟨hlo, hocc, hne⟩
    have hb := occursAtB_bound mark3 s i (by decide) hocc
    refine ⟨hb.2, ?_⟩
    simp only [Bool.and_eq_true, decide_eq_true_eq]
    exact ⟨hlo, hocc, (bnotIsEmpty _).mpr hne⟩

theorem cands2_mem_iff (s : Str) (lo i : Nat) :
    i ∈ cands2 s lo ↔
      lo ≤ i ∧ occursAtB mark2 s i = true ∧
        cands3 s (i + mark2.length + 1) ≠ [] := by
  unfold cands2 viable2
  rw [List.mem_filter, List.mem_range]
  constructor
  · rintro ⟨hi, hpred⟩
    simp only [Bool.and_eq_true, decide_eq_true_eq] at hpred
    exact ⟨hpred.1, hpred.2.1, (bnotIsEmpty _).mp hpred.2.2⟩
  · rintro ⟨hlo, hocc, hne⟩
    have hb := occursAtB_bound mark2 s i (by decide) hocc
    refine ⟨hb.2, ?_⟩
    simp only [Bool.and_eq_true, decide_eq_true_eq]
    exact ⟨hlo, hocc, (bnotIsEmpty _).mpr hne⟩

theorem cands1_mem_iff (s : Str) (i : Nat) :
    i ∈ cands1 s ↔
      1 ≤ i ∧ occursAtB mark1 s i = true ∧
        cands2 s (i + mark1.length + 1) ≠ [] := by
  unfold cands1 viable1
  rw [List.mem_filter, List.mem_range]
  constructor
  · rintro ⟨hi, hpred⟩
    simp only [Bool.and_eq_true, decide_eq_true_eq] at hpred
    exact ⟨hpred.1, hpred.2.1, (bnotIsEmpty _).mp hpred.2.2⟩
  · rintro ⟨hlo, hocc, hne⟩
    have hb := occursAtB_bound mark1 s i (by decide) hocc
    refine ⟨hb.2, ?_⟩
    simp only [Bool.and_eq_true, decide_eq_true_eq]
    exact ⟨hlo, hocc, (bnotIsEmpty _).mpr hne⟩

/-- Spec-side reading of "the fixed marker sequence occurs": the four
markers occur in the page text, in order, without overlapping. -/
def markersSeqProp (s : Str) : Prop :=
  ∃ i1 i2 i3 i4 : Nat,
    occursAtB mark1 s i1 = true ∧ occursAtB mark2 s i2 = true ∧
    occursAtB mark3 s i3 = true ∧ occursAtB mark4 s i4 = true ∧
    i1 + mark1.length ≤ i2 ∧ i2 + mark2.length ≤ i3 ∧
    i3 + mark3.length ≤ i4

theorem splitWebtext_err_of_not_seq (s : Str) (h : ¬ markersSeqProp s) :
    splitWebtext s = .error () := by
  cases hm : maxCand (cands1 s) with
  | none =>
    unfold splitWebtext
    rw [hm]
  | some i1 =>
    exfalso
    apply h
    obtain ⟨h1lo, h1occ, h1ne⟩ := (cands1_mem_iff s i1).mp (maxCand_mem _ _ hm)
    obtain ⟨i2, h2⟩ := List.exists_mem_of_ne_nil _ h1ne
    obtain ⟨h2lo, h2occ, h2ne⟩ := (cands2_mem_iff s _ i2).mp h2
    obtain ⟨i3, h3⟩ := List.exists_mem_of_ne_nil _ h2ne
    obtain ⟨h3lo, h3occ, h3ne⟩ := (cands3_mem_iff s _ i3).mp h3
    obtain ⟨i4, h4⟩ := List.exists_mem_of_ne_nil _ h3ne
    obtain ⟨h4lo, h4occ, h4bound⟩ := (cands4_mem_iff s _ i4).mp h4
    exact ⟨i1, i2, i3, i4, h1occ, h2occ, h3occ, h4occ,
      by omega, by omega, by omega⟩

theorem executeOnce_unchanged (db : Db) (u : Str) (now : PyDateTime)
    (sendOk : NagaokaRawText → Bool)
    (h : splitWebtext (cleansing u) = .error ()) :
    executeOnce db u now sendOk = db := by
  unfold executeOnce
  rw [h]

/-- A page text containing all four markers, in order, but with no
character before the first marker. -/
def pageNoPad : Str :=
  str "↓現在発生している災害↓A↑現在発生している災害↑x↓過去の災害経過情報↓B↑過去の災害経過情報↑y"

/-- C9 counterexample: `pageNoPad` contains the full marker sequence in
order, yet `_split_webtext` raises — the leading `.+` of its pattern
demands at least one character before the first marker. -/
theorem segmenter_cex :
    markersSeqProp pageNoPad ∧ splitWebtext pageNoPad = .error () := by
  constructor
  · exact ⟨0, 13, 26, 38, by decide, by decide, by decide, by decide,
      by decide, by decide, by decide⟩
  · have hocc1 : occCount mark1 pageNoPad = 1 := by decide
    have h0 : occursAtB mark1 pageNoPad 0 = true := by decide
    have hnil : cands1 pageNoPad = [] := by
      rw [List.eq_nil_iff_forall_not_mem]
      intro i hi
      obtain ⟨hge, hocc, _⟩ := (cands1_mem_iff pageNoPad i).mp hi
      have := occ_unique mark1 pageNoPad (by decide) hocc1 i 0 hocc h0
      omega
    unfold splitWebtext
    rw [hnil]
    rfl

/-- C9 as amended: a page text in which the marker sequence does not occur
in order makes `_split_webtext` raise, and a run over such a page leaves
the database untouched (zero ingested records); and when each marker
occurs exactly once, with at least one character before the first marker,
between consecutive markers, and after the last one, `_split_webtext`
returns exactly the current-zone body and the past-zone body. -/
theorem segmenter_amended (p a q b y : Str)
    (hp : p ≠ []) (ha : a ≠ []) (hq : q ≠ []) (hb : b ≠ []) (hy : y ≠ [])
    (h1 : occCount mark1 (p ++ mark1 ++ a ++ mark2 ++ q ++ mark3 ++ b ++ mark4 ++ y) = 1)
    (h2 : occCount mark2 (p ++ mark1 ++ a ++ mark2 ++ q ++ mark3 ++ b ++ mark4 ++ y) = 1)
    (h3 : occCount mark3 (p ++ mark1 ++ a ++ mark2 ++ q ++ mark3 ++ b ++ mark4 ++ y) = 1)
    (h4 : occCount mark4 (p ++ mark1 ++ a ++ mark2 ++ q ++ mark3 ++ b ++ mark4 ++ y) = 1) :
    splitWebtext (p ++ mark1 ++ a ++ mark2 ++ q ++ mark3 ++ b ++ mark4 ++ y) =
      .ok (a, b) ∧
    (∀ u, ¬ markersSeqProp u → splitWebtext u = .error ()) ∧
    (∀ (db : Db) (u : Str) (now : PyDateTime) (sendOk : NagaokaRawText → Bool),
      splitWebtext (cleansing u) = .error () → executeOnce db u now sendOk = db) := by
  refine ⟨?_, splitWebtext_err_of_not_seq,
    fun db u now sendOk h => executeOnce_unchanged db u now sendOk h⟩
  set t := p ++ mark1 ++ a ++ mark2 ++ q ++ mark3 ++ b ++ mark4 ++ y with ht
  have hplen := List.length_pos.mpr hp
  have halen := List.length_pos.mpr ha
  have hqlen := List.length_pos.mpr hq
  have hblen := List.length_pos.mpr hb
  have hylen := List.length_pos.mpr hy
  -- the canonical positions of the four markers
  have ho1 : occursAtB mark1 t p.length = true := by
    rw [show t = p ++ (mark1 ++ (a ++ mark2 ++ q ++ mark3 ++ b ++ mark4 ++ y)) by
      simp [ht, List.append_assoc]]
    exact occursAtB_append p mark1 _
  have ho2 : occursAtB mark2 t (p.length + mark1.length + a.length) = true := by
    rw [show t = (p ++ mark1 ++ a) ++ (mark2 ++ (q ++ mark3 ++ b ++ mark4 ++ y)) by
      simp [ht, List.append_assoc]]
    rw [show p.length + mark1.length + a.length = (p ++ mark1 ++ a).length by
      simp only [List.length_append]; try omega]
    exact occursAtB_append _ mark2 _
  have ho3 : occursAtB mark3 t
      (p.length + mark1.length + a.length + mark2.length + q.length) = true := by
    rw [show t = (p ++ mark1 ++ a ++ mark2 ++ q) ++
        (mark3 ++ (b ++ mark4 ++ y)) by simp [ht, List.append_assoc]]
    rw [show p.length + mark1.length + a.length + mark2.length + q.length =
        (p ++ mark1 ++ a ++ mark2 ++ q).length by simp only [List.length_append]; try omega]
    exact occursAtB_append _ mark3 _
  have ho4 : occursAtB mark4 t
      (p.length + mark1.length + a.length + mark2.length + q.length +
        mark3.length + b.length) = true := by
    rw [show t = (p ++ mark1 ++ a ++ mark2 ++ q ++ mark3 ++ b) ++
        (mark4 ++ y) by simp [ht, List.append_assoc]]
    rw [show p.length + mark1.length + a.length + mark2.length + q.length +
        mark3.length + b.length =
        (p ++ mark1 ++ a ++ mark2 ++ q ++ mark3 ++ b).length by
      simp only [List.length_append]; try omega]
    exact occursAtB_append _ mark4 _
  have htlen : t.length = p.length + mark1.length + a.length + mark2.length +
      q.length + mark3.length + b.length + mark4.length + y.length := by
    simp [ht, List.length_append]
    omega
  -- uniqueness of each position
  have hu1 : ∀ x, occursAtB mark1 t x = true → x = p.length :=
    fun x hx => occ_unique mark1 t (by decide) h1 x _ hx ho1
  have hu2 : ∀ x, occursAtB mark2 t x = true →
      x = p.length + mark1.length + a.length :=
    fun x hx => occ_unique mark2 t (by decide) h2 x _ hx ho2
  have hu3 : ∀ x, occursAtB mark3 t x = true →
      x = p.length + mark1.length + a.length + mark2.length + q.length :=
    fun x hx => occ_unique mark3 t (by decide) h3 x _ hx ho3
  have hu4 : ∀ x, occursAtB mark4 t x = true →
      x = p.length + mark1.length + a.length + mark2.length + q.length +
        mark3.length + b.length :=
    fun x hx => occ_unique mark4 t (by decide) h4 x _ hx ho4
  -- the greedy maxima of the candidate sets
  have hm4 : ∀ lo, lo ≤ p.length + mark1.length + a.length + mark2.length +
      q.length + mark3.length + b.length → maxCand (cands4 t lo) =
      some (p.length + mark1.length + a.length + mark2.length + q.length +
        mark3.length + b.length) := by
    intro lo hlo
    refine maxCand_all_eq _ _
      (List.ne_nil_of_mem ((cands4_mem_iff t lo _).mpr ⟨hlo, ho4, by omega⟩))
      (fun x hx => hu4 x ((cands4_mem_iff t lo x).mp hx).2.1)
  have hne4 : ∀ lo, lo ≤ p.length + mark1.length + a.length + mark2.length +
      q.length + mark3.length + b.length → cands4 t lo ≠ [] := by
    intro lo hlo
    exact List.ne_nil_of_mem ((cands4_mem_iff t lo _).mpr ⟨hlo, ho4, by omega⟩)
  have hm3 : ∀ lo, lo ≤ p.length + mark1.length + a.length + mark2.length +
      q.length → maxCand (cands3 t lo) =
      some (p.length + mark1.length + a.length + mark2.length + q.length) := by
    intro lo hlo
    refine maxCand_all_eq _ _
      (List.ne_nil_of_mem ((cands3_mem_iff t lo _).mpr
        ⟨hlo, ho3, hne4 _ (by omega)⟩))
      (fun x hx => hu3 x ((cands3_mem_iff t lo x).mp hx).2.1)
  have hne3 : ∀ lo, lo ≤ p.length + mark1.length + a.length + mark2.length +
      q.length → cands3 t lo ≠ [] := by
    intro lo hlo
    exact List.ne_nil_of_mem ((cands3_mem_iff t lo _).mpr
      ⟨hlo, ho3, hne4 _ (by omega)⟩)
  have hm2 : ∀ lo, lo ≤ p.length + mark1.length + a.length →
      maxCand (cands2 t lo) = some (p.length + mark1.length + a.length) := by
    intro lo hlo
    refine maxCand_all_eq _ _
      (List.ne_nil_of_mem ((cands2_mem_iff t lo _).mpr
        ⟨hlo, ho2, hne3 _ (by omega)⟩))
      (fun x hx => hu2 x ((cands2_mem_iff t lo x).mp hx).2.1)
  have hne2 : ∀ lo, lo ≤ p.length + mark1.length + a.length →
      cands2 t lo ≠ [] := by
    intro lo hlo
    exact List.ne_nil_of_mem ((cands2_mem_iff t lo _).mpr
      ⟨hlo, ho2, hne3 _ (by omega)⟩)
  have hm1 : maxCand (cands1 t) = some p.length := by
    refine maxCand_all_eq _ _
      (List.ne_nil_of_mem ((cands1_mem_iff t _).mpr
        ⟨by omega, ho1, hne2 _ (by omega)⟩))
      (fun x hx => hu1 x ((cands1_mem_iff t x).mp hx).2.1)
  -- the two captured groups
  have hg1 : (t.drop (p.length + mark1.length)).take
      (p.length + mark1.length + a.length - (p.length + mark1.length)) = a := by
    rw [show p.length + mark1.length + a.length - (p.length + mark1.length) =
      a.length by omega]
    rw [show t = (p ++ mark1) ++ (a ++ (mark2 ++ q ++ mark3 ++ b ++ mark4 ++ y)) by
      simp [ht, List.append_assoc]]
    rw [show p.length + mark1.length = (p ++ mark1).length by
      simp only [List.length_append]; try omega]
    rw [List.drop_left]
    rw [show a.length = (a : Str).length from rfl]
    exact List.take_left a _
  have hg2 : (t.drop (p.length + mark1.length + a.length + mark2.length +
      q.length + mark3.length)).take
      (p.length + mark1.length + a.length + mark2.length + q.length +
        mark3.length + b.length -
        (p.length + mark1.length + a.length + mark2.length + q.length +
          mark3.length)) = b := by
    rw [show p.length + mark1.length + a.length + mark2.length + q.length +
        mark3.length + b.length -
        (p.length + mark1.length + a.length + mark2.length + q.length +
          mark3.length) = b.length by omega]
    rw [show t = (p ++ mark1 ++ a ++ mark2 ++ q ++ mark3) ++
        (b ++ (mark4 ++ y)) by simp [ht, List.append_assoc]]
    rw [show p.length + mark1.length + a.length + mark2.length + q.length +
        mark3.length = (p ++ mark1 ++ a ++ mark2 ++ q ++ mark3).length by
      simp only [List.length_append]; try omega]
    rw [List.drop_left]
    exact List.take_left b _
  -- evaluate the matcher
  unfold splitWebtext
  simp only [hm1]
  simp only [hm2 (p.length + mark1.length + 1) (by omega)]
  simp only [hm3 (p.length + mark1.length + a.length + mark2.length + 1)
    (by omega)]
  simp only [hm4 (p.length + mark1.length + a.length + mark2.length +
    q.length + mark3.length + 1) (by omega)]
  rw [hg1, hg2]

/-- Witness for C9: a page with unique markers and one character of
padding around each block splits into its two bodies. -/
theorem segmenter_amended_witness :
    splitWebtext (str "x" ++ mark1 ++ str "A" ++ mark2 ++ str "y" ++
      mark3 ++ str "B" ++ mark4 ++ str "z") = .ok (str "A", str "B") :=
  (segmenter_amended (str "x") (str "A") (str "y") (str "B") (str "z")
    (by decide) (by decide) (by decide) (by decide) (by decide)
    (by decide) (by decide) (by decide) (by decide)).1
